import Mathlib

/-!
Verification of the sigtube-server media proxy against its design spec.

The development shallowly embeds the two cores of the repository — the
byte-range streaming responder (`src/index.js`, route `GET /api/files/stream`)
and the watermark pipeline (`src/watermark`, shipped as `src/unnamed/part_003`)
— together with the logo resolver and the logo replacement operation, and
proves or refutes the spec's testable properties about them.

Byte buffers are modelled as `List Nat`, the remote WebDAV store as explicit
functions from paths to answers, and JavaScript numbers that can be `NaN`
(results of `parseInt`) as `Option Int` with `none` standing for `NaN`.
-/

/-- Byte buffers (Node `Buffer`) are lists of byte values. -/
abbrev Bytes := List Nat

/- ### Decimal numerals

JavaScript template literals stringify numbers in decimal; the scratch paths
and the `Content-Range` header are built this way.  `decRepr` is the decimal
digit string of a natural number, `decVal` evaluates a digit string. -/

/-- The character of a single decimal digit. -/
def digitChar (d : Nat) : Char := Char.ofNat (48 + d)

/-- Decimal digit list of a natural number, most significant digit first
(the way a JS template literal renders a nonnegative integer). -/
def decRepr (n : Nat) : List Char :=
  if _h : n < 10 then [digitChar n]
  else decRepr (n / 10) ++ [digitChar (n % 10)]
termination_by n
decreasing_by omega

/-- Value of a decimal digit list (digit chars are 48-based). -/
def decVal (cs : List Char) : Nat :=
  cs.foldl (fun a c => a * 10 + (c.toNat - 48)) 0

/-- Decimal string of a natural number. -/
def natStr (n : Nat) : String := ⟨decRepr n⟩

/-- JS stringification of an integer. -/
def intStr (i : Int) : String :=
  if i < 0 then "-" ++ natStr i.natAbs else natStr i.toNat

/- ### JS numbers with NaN -/

/-- A JS number that may be `NaN` (`none`). -/
abbrev JSNum := Option Int

/-- NaN-propagating addition. -/
def jsAdd : JSNum → JSNum → JSNum
  | some a, some b => some (a + b)
  | _, _ => none

/-- NaN-propagating subtraction. -/
def jsSub : JSNum → JSNum → JSNum
  | some a, some b => some (a - b)
  | _, _ => none

/-- How JS renders a number into a template literal (`NaN` prints "NaN"). -/
def jsNumStr : JSNum → String
  | none => "NaN"
  | some i => intStr i

/-- Leading decimal digits of a character list, as a value; `none` when there
is no leading digit (that is `parseInt`'s NaN case). -/
def leadingDigitsVal (cs : List Char) : Option Nat :=
  let ds := cs.takeWhile (fun c => c.isDigit)
  if ds.isEmpty then none else some (decVal ds)

/-- JS `parseInt(s, 10)`: skip leading whitespace, optional sign, then the
longest prefix of decimal digits; `NaN` (`none`) when no digit follows. -/
def jsParseInt (s : String) : JSNum :=
  let cs := s.data.dropWhile (fun c => c.isWhitespace)
  match cs with
  | '-' :: rest => (leadingDigitsVal rest).map (fun v => -(v : Int))
  | '+' :: rest => (leadingDigitsVal rest).map (fun v => (v : Int))
  | _ => (leadingDigitsVal cs).map (fun v => (v : Int))

/-- Worker for `jsSplit`: scan for the separator, cutting a field each time it
is found.  The fuel argument (initially the input length) only makes the
recursion structural; it never runs out on a nonempty separator. -/
def jsSplitAux (sep : List Char) : Nat → List Char → List Char → List (List Char)
  | _, [], acc => [acc.reverse]
  | 0, cs, acc => [acc.reverse ++ cs]
  | fuel + 1, c :: rest, acc =>
    if sep.isPrefixOf (c :: rest) then
      acc.reverse :: jsSplitAux sep fuel ((c :: rest).drop sep.length) []
    else jsSplitAux sep fuel rest (c :: acc)

/-- JS `s.split(sep)` for a plain nonempty string separator. -/
def jsSplit (s sep : String) : List String :=
  (jsSplitAux sep.data s.data.length s.data []).map (fun l => ⟨l⟩)

/-- JS `toLowerCase` on one ASCII character. -/
def jsCharLower (c : Char) : Char :=
  if 65 ≤ c.toNat ∧ c.toNat ≤ 90 then Char.ofNat (c.toNat + 32) else c

/-- JS `s.toLowerCase()` (ASCII case folding, which is all the route needs for
file extensions). -/
def jsToLower (s : String) : String := ⟨s.data.map jsCharLower⟩

/-- Drop the first occurrence of `pat` from a character list
(JS `String.prototype.replace` with a plain substring pattern and empty
replacement). -/
def replaceFirstAux (pat : List Char) : List Char → List Char
  | [] => []
  | c :: rest =>
    if pat.isPrefixOf (c :: rest) then (c :: rest).drop pat.length
    else c :: replaceFirstAux pat rest

/-- JS `s.replace(pat, "")` for a plain substring pattern: remove the first
occurrence of `pat`. -/
def jsReplaceFirst (s pat : String) : String := ⟨replaceFirstAux pat.data s.data⟩

/- ### The stream responder (GET /api/files/stream, src/index.js lines 541-620) -/

/-- Outcome of `owncloud.stat(path)`: a size, a 404 from the WebDAV backend, or
any other transport/server failure carrying its message. -/
inductive StatResult
  | ok (size : Nat)
  | notFound
  | transport (msg : String)
deriving DecidableEq

/-- The remote store as seen by the stream route: a stat answer and the byte
content per path (content is meaningful where stat succeeds). -/
structure Store where
  statR : String → StatResult
  objects : String → Bytes

/-- A store call issued by the responder, in order. -/
inductive StoreOp
  | statOp (p : String)
  | readOp (p : String) (window : Option (JSNum × JSNum))
  | writeOp (p : String)
deriving DecidableEq

/-- An HTTP body: text for error replies, bytes for streamed content. -/
inductive Body
  | text (s : String)
  | bytes (b : Bytes)
deriving DecidableEq

/-- The HTTP-shaped response the route produces.  `contentLength` is `none`
when the header is absent, and `some v` when present with JS number `v`
(possibly NaN). -/
structure Response where
  status : Nat
  contentRange : Option String := none
  acceptRanges : Option String := none
  contentLength : Option JSNum := none
  contentType : Option String := none
  body : Body
deriving DecidableEq

/-- Result of one run of the route: the response plus the trace of store
calls. -/
structure StreamOut where
  resp : Response
  ops : List StoreOp
deriving DecidableEq

/-- The extension→MIME table of the route (src/index.js lines 558-567). -/
def mimeTypes : List (String × String) :=
  [("png", "image/png"), ("jpg", "image/jpeg"), ("jpeg", "image/jpeg"),
   ("gif", "image/gif"), ("mp4", "video/mp4"), ("mov", "video/quicktime"),
   ("webm", "video/webm"), ("svg", "image/svg+xml")]

/-- `path.split('.').pop().toLowerCase()` looked up in the MIME table,
defaulting to a generic binary type. -/
def mimeFor (p : String) : String :=
  let ext := jsToLower ((jsSplit p ".").getLastD "")
  (mimeTypes.lookup ext).getD "application/octet-stream"

/-- `parseInt(parts[0], 10)` of `range.replace(/bytes=/, "").split("-")`. -/
def parseStart (r : String) : JSNum :=
  jsParseInt ((jsSplit (jsReplaceFirst r "bytes=") "-").getD 0 "")

/-- `parts[1] ? parseInt(parts[1], 10) : fileSize - 1` — the end offset, which
defaults to `fileSize - 1` when the second range part is missing or empty. -/
def parseEnd (r : String) (fileSize : Nat) : JSNum :=
  match (jsSplit (jsReplaceFirst r "bytes=") "-").get? 1 with
  | some x => if x ≠ "" then jsParseInt x else some ((fileSize : Int) - 1)
  | none => some ((fileSize : Int) - 1)

/-- Modelled from the spec (section 2): the remote store collaborator's
range-capable read (`openRead(path, [byteRange])`).  A satisfiable window
`[s, e]` returns exactly that byte window of the object; without a window the
whole object is returned.  The client library itself is external to the
repository. -/
def storeRead (obj : Bytes) : Option (JSNum × JSNum) → Bytes
  | none => obj
  | some (some s, some e) =>
    if 0 ≤ s ∧ s ≤ e then (obj.drop s.toNat).take ((e - s + 1).toNat) else obj
  | some _ => obj

/-- The full-object (no Range header, or falsy empty Range header) reply of the
route: 200 with `Content-Length = fileSize` and a full read. -/
def fullReply (p : String) (fileSize : Nat) (st : Store) : StreamOut :=
  ⟨{ status := 200
     acceptRanges := some "bytes"
     contentLength := some (some (fileSize : Int))
     contentType := some (mimeFor p)
     body := .bytes (storeRead (st.objects p) none) },
   [.statOp p, .readOp p none]⟩

/-- The range-branch reply of the route: parse the header, answer 206 with
`Content-Range`, and forward the parsed window to the store's ranged read. -/
def rangeReply (p : String) (r : String) (fileSize : Nat) (st : Store) : StreamOut :=
  let s := parseStart r
  let e := parseEnd r fileSize
  let chunk := jsAdd (jsSub e s) (some 1)
  ⟨{ status := 206
     contentRange := some ("bytes " ++ jsNumStr s ++ "-" ++ jsNumStr e ++ "/" ++ natStr fileSize)
     acceptRanges := some "bytes"
     contentLength := some chunk
     contentType := some (mimeFor p)
     body := .bytes (storeRead (st.objects p) (some (s, e))) },
   [.statOp p, .readOp p (some (s, e))]⟩

/-- The `GET /api/files/stream` route (src/index.js lines 541-620): reject a
missing `path` query with 400 before any store call; stat the path; translate
a not-found stat to 404 and any other stat failure to a generic 500; otherwise
answer the range branch (the Range header is truthy) or the full branch. -/
def streamFile (st : Store) (pathQ : Option String) (rangeH : Option String) : StreamOut :=
  match pathQ with
  | none => ⟨{ status := 400, body := .text "Missing path" }, []⟩
  | some p =>
    match st.statR p with
    | .notFound => ⟨{ status := 404, body := .text "File not found" }, [.statOp p]⟩
    | .transport _ => ⟨{ status := 500, body := .text "Failed to stream file" }, [.statOp p]⟩
    | .ok fileSize =>
      match rangeH with
      | some r => if r = "" then fullReply p fileSize st else rangeReply p r fileSize st
      | none => fullReply p fileSize st

/- ### Claims about the stream responder -/

/-- A concrete store with one six-byte object, used by witnesses and
counterexamples. -/
def demoStore : Store :=
  { statR := fun p => if p = "/v.mp4" then .ok 6 else .notFound
    objects := fun p => if p = "/v.mp4" then [10, 20, 30, 40, 50, 60] else [] }

/-- A concrete store whose stat fails: not-found at one path, a transport
error elsewhere. -/
def demoStoreErr : Store :=
  { statR := fun p => if p = "/missing" then .notFound else .transport "boom"
    objects := fun _ => [] }

/-- C1: a stream request whose Range header parses to a valid range
`0 ≤ start ≤ end ≤ T-1` on an object of size `T` is answered 206 with
`Content-Range: bytes <start>-<end>/<T>`, `Accept-Ranges: bytes`,
`Content-Length = end-start+1`, and a body that is exactly the object's bytes
in `[start, end]`, obtained by forwarding that same window to the store's
ranged read (never a full read). -/
theorem streamFile_valid_range (st : Store) (p r : String) (s e T : Nat)
    (hstat : st.statR p = .ok T)
    (hlen : (st.objects p).length = T)
    (hr : r ≠ "")
    (hs : parseStart r = some (s : Int))
    (he : parseEnd r T = some (e : Int))
    (hse : s ≤ e) (heT : e < T) :
    (streamFile st (some p) (some r)).resp.status = 206 ∧
    (streamFile st (some p) (some r)).resp.contentRange
      = some ("bytes " ++ natStr s ++ "-" ++ natStr e ++ "/" ++ natStr T) ∧
    (streamFile st (some p) (some r)).resp.acceptRanges = some "bytes" ∧
    (streamFile st (some p) (some r)).resp.contentLength
      = some (some ((e - s + 1 : Nat) : Int)) ∧
    (streamFile st (some p) (some r)).resp.body
      = .bytes (((st.objects p).drop s).take (e - s + 1)) ∧
    (((st.objects p).drop s).take (e - s + 1)).length = e - s + 1 ∧
    (streamFile st (some p) (some r)).ops
      = [.statOp p, .readOp p (some (some (s : Int), some (e : Int)))] := by
  have hns : (0 : Int) ≤ (s : Int) := Int.natCast_nonneg s
  have hse' : ((s : Int)) ≤ (e : Int) := by exact_mod_cast hse
  have hout : streamFile st (some p) (some r) = rangeReply p r T st := by
    simp only [streamFile, hstat]
    rw [if_neg hr]
  rw [hout]
  unfold rangeReply
  rw [hs, he]
  simp only [jsAdd, jsSub, jsNumStr, intStr, storeRead]
  rw [if_neg (by omega : ¬ ((s : Int) < 0)), if_neg (by omega : ¬ ((e : Int) < 0)),
      if_pos ⟨hns, hse'⟩]
  have h1 : ((s : Int)).toNat = s := by omega
  have h2 : ((e : Int)).toNat = e := by omega
  have h3 : ((e : Int) - (s : Int) + 1).toNat = e - s + 1 := by omega
  have h4 : ((e : Int) - (s : Int) + 1) = ((e - s + 1 : Nat) : Int) := by omega
  rw [h1, h2, h3, h4]
  refine ⟨trivial, rfl, trivial, rfl, rfl, ?_, trivial⟩
  rw [List.length_take, List.length_drop, hlen]
  omega

/-- Witness for C1 at a concrete store and the request `Range: bytes=2-4` on a
six-byte object. -/
theorem streamFile_valid_range_witness :
    (streamFile demoStore (some "/v.mp4") (some "bytes=2-4")).resp.status = 206 ∧
    (streamFile demoStore (some "/v.mp4") (some "bytes=2-4")).resp.contentLength
      = some (some ((3 : Nat) : Int)) ∧
    (streamFile demoStore (some "/v.mp4") (some "bytes=2-4")).resp.body
      = .bytes [30, 40, 50] := by
  have h := streamFile_valid_range demoStore "/v.mp4" "bytes=2-4" 2 4 6
    (by decide) (by decide) (by decide) (by decide) (by decide) (by decide) (by decide)
  refine ⟨h.1, h.2.2.2.1, ?_⟩
  have hb := h.2.2.2.2.1
  simpa [demoStore] using hb

/-- C5 counterexample: a request whose Range header is unparseable
(`bytes=abc`, so `parseInt` yields NaN) is not answered 400 with no store
call — the route still stats the store and replies 206. -/
theorem streamFile_bad_range_counterexample :
    ¬ ((streamFile demoStore (some "/v.mp4") (some "bytes=abc")).resp.status = 400 ∧
       (streamFile demoStore (some "/v.mp4") (some "bytes=abc")).ops = []) ∧
    (streamFile demoStore (some "/v.mp4") (some "bytes=abc")).resp.status = 206 ∧
    StoreOp.statOp "/v.mp4" ∈ (streamFile demoStore (some "/v.mp4") (some "bytes=abc")).ops := by
  refine ⟨?_, by decide, by decide⟩
  rintro ⟨h, -⟩
  revert h
  decide

/-- C5 amended: a stream request with a missing `path` parameter is answered
400 with no store call; an unparseable range specifier, however, is not
rejected — the stat is still performed and a 206 is emitted with the
unvalidated values. -/
theorem streamFile_client_errors_amended :
    (∀ st rangeH, (streamFile st none rangeH).resp.status = 400 ∧
      (streamFile st none rangeH).ops = []) ∧
    (∀ st p r T, st.statR p = .ok T → r ≠ "" → parseStart r = none →
      (streamFile st (some p) (some r)).resp.status = 206 ∧
      StoreOp.statOp p ∈ (streamFile st (some p) (some r)).ops) := by
  constructor
  · intro st rangeH
    exact ⟨rfl, rfl⟩
  · intro st p r T hstat hr hs
    have hout : streamFile st (some p) (some r) = rangeReply p r T st := by
      simp only [streamFile, hstat]
      rw [if_neg hr]
    rw [hout]
    unfold rangeReply
    exact ⟨rfl, by simp⟩

/-- Witness for the amended C5 at concrete requests. -/
theorem streamFile_client_errors_witness :
    (streamFile demoStore none none).resp.status = 400 ∧
    (streamFile demoStore (some "/v.mp4") (some "bytes=abc")).resp.status = 206 := by
  exact ⟨(streamFile_client_errors_amended.1 demoStore none).1,
    (streamFile_client_errors_amended.2 demoStore "/v.mp4" "bytes=abc" 6
      (by decide) (by decide) (by decide)).1⟩

/-- C6: with a path present, a not-found stat yields 404 with no write call
(the only store call is the stat), and any other stat failure yields a generic
500 whose body never echoes the underlying error message. -/
theorem streamFile_stat_failures (st : Store) (p : String) (rangeH : Option String) :
    (st.statR p = .notFound →
      (streamFile st (some p) rangeH).resp.status = 404 ∧
      (streamFile st (some p) rangeH).ops = [.statOp p] ∧
      ∀ q, StoreOp.writeOp q ∉ (streamFile st (some p) rangeH).ops) ∧
    (∀ msg, st.statR p = .transport msg →
      (streamFile st (some p) rangeH).resp.status = 500 ∧
      (streamFile st (some p) rangeH).resp.body = .text "Failed to stream file" ∧
      (streamFile st (some p) rangeH).ops = [.statOp p]) := by
  constructor
  · intro h
    simp only [streamFile, h]
    simp
  · intro msg h
    simp only [streamFile, h]
    simp

/-- Witness for C6 at a concrete store with a missing path and a transport
failure. -/
theorem streamFile_stat_failures_witness :
    (streamFile demoStoreErr (some "/missing") none).resp.status = 404 ∧
    (streamFile demoStoreErr (some "/x") none).resp.status = 500 := by
  exact ⟨((streamFile_stat_failures demoStoreErr "/missing" none).1 (by decide)).1,
    ((streamFile_stat_failures demoStoreErr "/x" none).2 "boom" (by decide)).1⟩

deriving instance DecidableEq for Except

/- ### The logo resolver (src/unnamed/part_003, getOrgLogoBuffer) -/

/-- Answer of the store for one logo path, folding `owncloud.exists` and the
subsequent binary `getFileContents` into one capability: the file is there
with these bytes, it is absent, or the store fails with a transport error
(either call may reject; a rejection propagates out of the resolver). -/
inductive StoreAns
  | found (b : Bytes)
  | absent
  | failed (msg : String)
deriving DecidableEq

/-- The fixed ordered extension list shared by the resolver and the
replacement paths. -/
def extensions : List String :=
  [".png", ".jpg", ".jpeg", ".svg", ".jfif", ".webp", ".gif"]

/-- The logo path probed for a tenant and an extension. -/
def orgLogoPathFor (orgName ext : String) : String :=
  "/organizations/" ++ orgName ++ "/logo" ++ ext

/-- The probe loop of `getOrgLogoBuffer` over a list of extensions. -/
def getOrgLogoBufferGo (store : String → StoreAns) (orgName : String) :
    List String → Except String (Option Bytes)
  | [] => .ok none
  | ext :: rest =>
    match store (orgLogoPathFor orgName ext) with
    | .found b => .ok (some b)
    | .absent => getOrgLogoBufferGo store orgName rest
    | .failed m => .error m

/-- `getOrgLogoBuffer(orgName)`: probe `/organizations/<org>/logo<ext>` for
each extension in the fixed order and return the first hit's bytes, `none`
when no variant exists. -/
def getOrgLogoBuffer (store : String → StoreAns) (orgName : String) :
    Except String (Option Bytes) :=
  getOrgLogoBufferGo store orgName extensions

/-- First-hit behaviour of the probe loop. -/
theorem getOrgLogoBufferGo_first_hit (store : String → StoreAns) (orgName : String)
    (pre : List String) (ext : String) (post : List String) (b : Bytes)
    (hpre : ∀ x ∈ pre, store (orgLogoPathFor orgName x) = .absent)
    (hhit : store (orgLogoPathFor orgName ext) = .found b) :
    getOrgLogoBufferGo store orgName (pre ++ ext :: post) = .ok (some b) := by
  induction pre with
  | nil => simp [getOrgLogoBufferGo, hhit]
  | cons x xs ih =>
    have hx := hpre x (by simp)
    simp only [List.cons_append, getOrgLogoBufferGo, hx]
    exact ih (fun y hy => hpre y (by simp [hy]))

/-- The probe loop answers `none` when every extension is absent. -/
theorem getOrgLogoBufferGo_none (store : String → StoreAns) (orgName : String)
    (l : List String) (h : ∀ x ∈ l, store (orgLogoPathFor orgName x) = .absent) :
    getOrgLogoBufferGo store orgName l = .ok none := by
  induction l with
  | nil => rfl
  | cons x xs ih =>
    have hx := h x (by simp)
    simp only [getOrgLogoBufferGo, hx]
    exact ih (fun y hy => h y (by simp [hy]))

/-- C7: logo resolution probes the fixed extension order
`[.png, .jpg, .jpeg, .svg, .jfif, .webp, .gif]` and returns the bytes of the
first extension whose file exists; when no variant exists it returns absent
(`none`) without throwing. -/
theorem getOrgLogoBuffer_order :
    extensions = [".png", ".jpg", ".jpeg", ".svg", ".jfif", ".webp", ".gif"] ∧
    (∀ (store : String → StoreAns) (orgName : String) pre ext post b,
      extensions = pre ++ ext :: post →
      (∀ x ∈ pre, store (orgLogoPathFor orgName x) = .absent) →
      store (orgLogoPathFor orgName ext) = .found b →
      getOrgLogoBuffer store orgName = .ok (some b)) ∧
    (∀ (store : String → StoreAns) (orgName : String),
      (∀ x ∈ extensions, store (orgLogoPathFor orgName x) = .absent) →
      getOrgLogoBuffer store orgName = .ok none) := by
  refine ⟨rfl, ?_, ?_⟩
  · intro store orgName pre ext post b hsplit hpre hhit
    unfold getOrgLogoBuffer
    rw [hsplit]
    exact getOrgLogoBufferGo_first_hit store orgName pre ext post b hpre hhit
  · intro store orgName h
    exact getOrgLogoBufferGo_none store orgName extensions h

/-- A store where tenant `acme` has both a `.png` and a `.jpg` logo. -/
def demoLogoStore : String → StoreAns := fun p =>
  if p = "/organizations/acme/logo.png" then .found [1]
  else if p = "/organizations/acme/logo.jpg" then .found [2]
  else .absent

/-- Witness for C7: with both `.png` and `.jpg` present the resolver returns
the `.png` bytes, and with nothing present it returns `none`. -/
theorem getOrgLogoBuffer_order_witness :
    getOrgLogoBuffer demoLogoStore "acme" = .ok (some [1]) ∧
    getOrgLogoBuffer (fun _ => .absent) "acme" = .ok none := by
  constructor
  · exact getOrgLogoBuffer_order.2.1 demoLogoStore "acme"
      [] ".png" [".jpg", ".jpeg", ".svg", ".jfif", ".webp", ".gif"] [1]
      rfl (by simp) (by decide)
  · exact getOrgLogoBuffer_order.2.2 (fun _ => .absent) "acme" (fun x _ => rfl)

/- ### The watermark pipeline, image variant (src/unnamed/part_003, processImage) -/

/-- An argument accepted by sharp: an in-memory buffer or a filesystem path
(the brand logo is passed to `createRoundedLogo` as its file path). -/
inductive SharpInput
  | buf (b : Bytes)
  | file (p : String)
deriving DecidableEq

/-- Gravity values used by the pipeline. -/
inductive Gravity
  | northeast
  | northwest
deriving DecidableEq

/-- One entry of the list given to sharp's `composite`: the overlay, the
gravity, and the `top`/`left` offsets, exactly the object literals the code
builds. -/
structure CompositeEntry where
  input : SharpInput
  gravity : Gravity
  top : Option Nat
  left : Option Nat
deriving DecidableEq

/-- The sharp library as an environment: `roundify` is the
resize/circle-mask/alpha/png chain inside `createRoundedLogo` (it fails on an
undecodable input), `compositeRun` is `sharp(base).composite(list).toBuffer()`
(it fails when the base does not decode).  The fractional opacity constant is
part of this opaque behaviour and is not modelled numerically. -/
structure SharpEnv where
  roundify : SharpInput → Nat → Except String Bytes
  compositeRun : Bytes → List CompositeEntry → Except String Bytes

/-- The environment of the image pipeline: sharp plus the remote store probed
for the tenant logo. -/
structure ImgEnv where
  sharp : SharpEnv
  store : String → StoreAns

/-- The bundled brand logo's path constant. -/
def SIGTRACK_LOGO_PATH : String := "assets/sigtrack-logo.svg"

/-- Logo pixel size constant of the pipeline. -/
def LOGO_SIZE : Nat := 50

/-- Pixel padding constant used for both overlays. -/
def PADDING : Nat := 20

/-- `createRoundedLogo`: run the sharp chain; on any error return the input
unchanged (so for the brand logo an error hands back the path itself). -/
def createRoundedLogo (env : SharpEnv) (input : SharpInput) (size : Nat) : SharpInput :=
  match env.roundify input size with
  | .ok b => .buf b
  | .error _ => input

/-- The composite list `processImage` builds: the brand logo entry with
gravity northeast and `top = left = PADDING`, then — when the tenant logo
resolves — the tenant logo entry with gravity northwest and the same
offsets. -/
def imageCompositeSpec (env : ImgEnv) (orgName : String) :
    Except String (List CompositeEntry) := do
  let sigtrackLogo := createRoundedLogo env.sharp (.file SIGTRACK_LOGO_PATH) LOGO_SIZE
  let orgLogoBuffer ← getOrgLogoBuffer env.store orgName
  let base := [CompositeEntry.mk sigtrackLogo .northeast (some PADDING) (some PADDING)]
  match orgLogoBuffer with
  | some b =>
    pure (base ++ [CompositeEntry.mk (createRoundedLogo env.sharp (.buf b) LOGO_SIZE)
      .northwest (some PADDING) (some PADDING)])
  | none => pure base

/-- The try-block of `processImage`: build the overlays, then run sharp's
composite over the source buffer. -/
def processImageBody (env : ImgEnv) (fileBuffer : Bytes) (orgName : String) :
    Except String Bytes := do
  let cs ← imageCompositeSpec env orgName
  env.sharp.compositeRun fileBuffer cs

/-- `processImage`: the whole body runs inside try/catch; any failure degrades
to the original buffer. -/
def processImage (env : ImgEnv) (fileBuffer : Bytes) (orgName : String) : Bytes :=
  match processImageBody env fileBuffer orgName with
  | .ok outputBuffer => outputBuffer
  | .error _ => fileBuffer

/-- Modelled from the sharp library's documented composite semantics (sharp is
an external collaborator, not code of this repository): when a composite entry
carries both `top` and `left`, the overlay is placed at exactly that
`(left, top)` offset from the top-left corner of the base image and `gravity`
is ignored; `gravity` positions the overlay only when the offsets are absent.
The result is the `(x, y)` pixel position of the overlay's top-left corner on
a base of width `baseW` for an overlay of width `ovW`. -/
def sharpPlacement (baseW ovW : Nat) (c : CompositeEntry) : Nat × Nat :=
  match c.top, c.left with
  | some t, some l => (l, t)
  | _, _ =>
    match c.gravity with
    | .northeast => (baseW - ovW, 0)
    | .northwest => (0, 0)

/-- An image environment where every sharp step succeeds and tenant `acme`
has a `.png` logo. -/
def demoImgEnv : ImgEnv :=
  { sharp :=
      { roundify := fun i _ => match i with | .file _ => .ok [3] | .buf b => .ok b
        compositeRun := fun _ _ => .ok [7] }
    store := demoLogoStore }

/-- C3 (divergence evidence): `processImage` builds both overlay entries with
`top = left = 20`, so under sharp's semantics both logos — the brand logo
included — are placed at `(20, 20)` from the TOP-LEFT corner of a 200-pixel
wide source, not at the top-right anchor `(200 - 50 - 20, 20)` the claim (and
the code's own comments) describe. -/
theorem processImage_gravity_ignored :
    imageCompositeSpec demoImgEnv "acme"
      = .ok [CompositeEntry.mk (.buf [3]) .northeast (some 20) (some 20),
             CompositeEntry.mk (.buf [1]) .northwest (some 20) (some 20)] ∧
    sharpPlacement 200 50 (CompositeEntry.mk (.buf [3]) .northeast (some 20) (some 20))
      = (20, 20) ∧
    sharpPlacement 200 50 (CompositeEntry.mk (.buf [1]) .northwest (some 20) (some 20))
      = (20, 20) ∧
    (20, 20) ≠ (200 - 50 - 20, 20) := by
  refine ⟨by decide, rfl, rfl, by decide⟩

/-- C4: `processImage` never raises — its result is either the original
buffer or the try-block's successful output — and whenever any internal step
fails it returns the original source bytes unchanged. -/
theorem processImage_never_raises (env : ImgEnv) (fileBuffer : Bytes) (orgName : String) :
    ((∃ e, processImageBody env fileBuffer orgName = .error e) →
      processImage env fileBuffer orgName = fileBuffer) ∧
    (processImage env fileBuffer orgName = fileBuffer ∨
      processImageBody env fileBuffer orgName = .ok (processImage env fileBuffer orgName)) := by
  cases h : processImageBody env fileBuffer orgName with
  | error e =>
    exact ⟨fun _ => by simp [processImage, h], Or.inl (by simp [processImage, h])⟩
  | ok o =>
    constructor
    · rintro ⟨e, he⟩
      simp [h] at he
    · right
      simp [processImage, h]

/-- An image environment whose composite step always fails (an undecodable
source). -/
def demoImgEnvBad : ImgEnv :=
  { sharp :=
      { roundify := fun i _ => match i with | .file _ => .ok [3] | .buf b => .ok b
        compositeRun := fun _ _ => .error "decode" }
    store := fun _ => .absent }

/-- Witness for C4: on an environment whose composite fails, a concrete buffer
comes back unchanged. -/
theorem processImage_never_raises_witness :
    processImage demoImgEnvBad [5, 6] "acme" = [5, 6] :=
  (processImage_never_raises demoImgEnvBad [5, 6] "acme").1 ⟨"decode", by decide⟩

/- ### Decimal numeral lemmas -/

/-- `digitChar` of a digit has the expected code point. -/
theorem digitChar_toNat : ∀ d, d < 10 → (digitChar d).toNat = 48 + d := by decide

/-- Evaluating a digit list that ends in one more digit. -/
theorem decVal_append_digit (xs : List Char) (c : Char) :
    decVal (xs ++ [c]) = decVal xs * 10 + (c.toNat - 48) := by
  simp [decVal, List.foldl_append]

/-- Round trip: evaluating the decimal representation recovers the number. -/
theorem decVal_decRepr (n : Nat) : decVal (decRepr n) = n := by
  induction n using Nat.strong_induction_on with
  | _ n ih =>
    by_cases h : n < 10
    · rw [decRepr, dif_pos h]
      have hd := digitChar_toNat n h
      simp [decVal, hd]
    · rw [decRepr, dif_neg h]
      rw [decVal_append_digit, ih (n / 10) (by omega)]
      have hd := digitChar_toNat (n % 10) (by omega)
      omega

/-- The decimal representation is injective. -/
theorem decRepr_inj {a b : Nat} (h : decRepr a = decRepr b) : a = b := by
  have := congrArg decVal h
  rwa [decVal_decRepr, decVal_decRepr] at this

/-- Every character of a decimal representation is a digit character. -/
theorem decRepr_digits (n : Nat) : ∀ c ∈ decRepr n, 48 ≤ c.toNat ∧ c.toNat ≤ 57 := by
  induction n using Nat.strong_induction_on with
  | _ n ih =>
    intro c hc
    by_cases h : n < 10
    · rw [decRepr, dif_pos h] at hc
      simp at hc
      subst hc
      have := digitChar_toNat n h
      omega
    · rw [decRepr, dif_neg h] at hc
      rcases List.mem_append.mp hc with hc | hc
      · exact ih (n / 10) (by omega) c hc
      · simp at hc
        subst hc
        have := digitChar_toNat (n % 10) (by omega)
        omega

/- ### The video scratch paths (src/unnamed/part_003, processVideo lines 95-99) -/

/-- The model of `os.tmpdir()`. -/
def tempDir : String := "/tmp"

/-- Scratch path for the materialized source: `input-<Date.now()>.mp4`. -/
def inputPathAt (t : Nat) : String := tempDir ++ "/input-" ++ natStr t ++ ".mp4"

/-- Scratch path for the encoder output: `output-<Date.now()>.mp4`. -/
def outputPathAt (t : Nat) : String := tempDir ++ "/output-" ++ natStr t ++ ".mp4"

/-- Scratch path for the brand logo raster: `sigtrack-<Date.now()>.png`. -/
def sigtrackPathAt (t : Nat) : String := tempDir ++ "/sigtrack-" ++ natStr t ++ ".png"

/-- Scratch path for the tenant logo raster: `org-<Date.now()>.png`. -/
def orgPathAt (t : Nat) : String := tempDir ++ "/org-" ++ natStr t ++ ".png"

/-- The scratch set of one job started at timestamp `t` — the only job-varying
input of the path construction is `Date.now()`. -/
def videoScratchPaths (t : Nat) : List String :=
  [inputPathAt t, outputPathAt t, sigtrackPathAt t, orgPathAt t]

/-- Recover the timestamp embedded in a scratch path: the digits strictly
between the first dash and the following dot. -/
def timeOf (s : String) : Nat :=
  decVal (((s.data.dropWhile (fun c => c != '-')).drop 1).takeWhile (fun c => c != '.'))

/-- Dropping up to the first dash past a dash-free prefix. -/
theorem dropWhile_no_dash (pre : List Char) (h : ∀ c ∈ pre, (c != '-') = true)
    (rest : List Char) :
    (pre ++ '-' :: rest).dropWhile (fun c => c != '-') = '-' :: rest := by
  induction pre with
  | nil => simp [List.dropWhile]
  | cons x xs ih =>
    have hx := h x (by simp)
    simp only [List.cons_append, List.dropWhile_cons, hx, if_true]
    exact ih (fun c hc => h c (by simp [hc]))

/-- Taking up to the first dot past a dot-free prefix. -/
theorem takeWhile_no_dot (ds : List Char) (h : ∀ c ∈ ds, (c != '.') = true)
    (rest : List Char) :
    (ds ++ '.' :: rest).takeWhile (fun c => c != '.') = ds := by
  induction ds with
  | nil => simp [List.takeWhile]
  | cons x xs ih =>
    have hx := h x (by simp)
    simp only [List.cons_append, List.takeWhile_cons, hx, if_true]
    rw [ih (fun c hc => h c (by simp [hc]))]

/-- `timeOf` recovers `t` from any string of the shape
`<dash-free prefix>-<digits of t>.<suffix>`. -/
theorem timeOf_mk (pre : List Char) (hpre : ∀ c ∈ pre, (c != '-') = true)
    (t : Nat) (suf : List Char) :
    timeOf ⟨pre ++ '-' :: (decRepr t ++ '.' :: suf)⟩ = t := by
  have hdig : ∀ c ∈ decRepr t, (c != '.') = true := by
    intro c hc
    have hb := decRepr_digits t c hc
    have hcne : c ≠ '.' := by
      intro he
      rw [he] at hb
      have h46 : ('.').toNat = 46 := rfl
      omega
    simpa using hcne
  unfold timeOf
  rw [show (String.mk (pre ++ '-' :: (decRepr t ++ '.' :: suf))).data
      = pre ++ '-' :: (decRepr t ++ '.' :: suf) from rfl]
  rw [dropWhile_no_dash pre hpre]
  simp only [List.drop_succ_cons, List.drop_zero]
  rw [takeWhile_no_dot _ hdig]
  exact decVal_decRepr t

/-- `timeOf` on an input scratch path. -/
theorem timeOf_inputPathAt (t : Nat) : timeOf (inputPathAt t) = t := by
  have he : inputPathAt t = ⟨"/tmp/input".data ++ '-' :: (decRepr t ++ '.' :: "mp4".data)⟩ := rfl
  rw [he]
  exact timeOf_mk _ (by decide) t _

/-- `timeOf` on an output scratch path. -/
theorem timeOf_outputPathAt (t : Nat) : timeOf (outputPathAt t) = t := by
  have he : outputPathAt t = ⟨"/tmp/output".data ++ '-' :: (decRepr t ++ '.' :: "mp4".data)⟩ := rfl
  rw [he]
  exact timeOf_mk _ (by decide) t _

/-- `timeOf` on a brand logo scratch path. -/
theorem timeOf_sigtrackPathAt (t : Nat) : timeOf (sigtrackPathAt t) = t := by
  have he : sigtrackPathAt t = ⟨"/tmp/sigtrack".data ++ '-' :: (decRepr t ++ '.' :: "png".data)⟩ := rfl
  rw [he]
  exact timeOf_mk _ (by decide) t _

/-- `timeOf` on a tenant logo scratch path. -/
theorem timeOf_orgPathAt (t : Nat) : timeOf (orgPathAt t) = t := by
  have he : orgPathAt t = ⟨"/tmp/org".data ++ '-' :: (decRepr t ++ '.' :: "png".data)⟩ := rfl
  rw [he]
  exact timeOf_mk _ (by decide) t _

/-- C8 counterexample: it is not true that any two distinct jobs — including
two started in the same millisecond, when `Date.now()` coincides — get
disjoint scratch path sets: the paths depend on nothing but the timestamp. -/
theorem videoScratchPaths_collision_counterexample :
    ¬ (∀ (t1 t2 : Nat) (b1 b2 : Bytes) (o1 o2 : String),
        (t1, b1, o1) ≠ (t2, b2, o2) →
        List.Disjoint (videoScratchPaths t1) (videoScratchPaths t2)) := by
  intro hclaim
  exact hclaim 1000 1000 [] [0] "a" "a" (by simp)
    (show inputPathAt 1000 ∈ videoScratchPaths 1000 by simp [videoScratchPaths])
    (show inputPathAt 1000 ∈ videoScratchPaths 1000 by simp [videoScratchPaths])

/-- C8 amended: two video watermark jobs whose `Date.now()` timestamps differ
have disjoint scratch path sets (jobs falling in the same millisecond share
all four scratch paths). -/
theorem videoScratchPaths_distinct_amended (t1 t2 : Nat) (h : t1 ≠ t2) :
    List.Disjoint (videoScratchPaths t1) (videoScratchPaths t2) := by
  intro a h1 h2
  apply h
  simp only [videoScratchPaths, List.mem_cons, List.not_mem_nil, or_false] at h1 h2
  rcases h1 with rfl | rfl | rfl | rfl <;>
    rcases h2 with h2 | h2 | h2 | h2 <;>
    · have ht := congrArg timeOf h2
      simp only [timeOf_inputPathAt, timeOf_outputPathAt, timeOf_sigtrackPathAt,
        timeOf_orgPathAt] at ht
      exact ht

/-- Witness for the amended C8 at two concrete timestamps. -/
theorem videoScratchPaths_distinct_witness :
    (1 : Nat) ≠ 2 ∧ List.Disjoint (videoScratchPaths 1) (videoScratchPaths 2) :=
  ⟨by decide, videoScratchPaths_distinct_amended 1 2 (by decide)⟩

/- ### The watermark pipeline, video variant (src/unnamed/part_003, processVideo) -/

/-- The scratch filesystem: path to content, `none` when the file does not
exist. -/
abbrev FS := String → Option Bytes

/-- `fs.writeFileSync` / `sharp(...).toFile`: create or overwrite a file. -/
def fsWrite (fs : FS) (p : String) (b : Bytes) : FS :=
  fun q => if q = p then some b else fs q

/-- `fs.unlinkSync`: remove a file. -/
def fsUnlink (fs : FS) (p : String) : FS :=
  fun q => if q = p then none else fs q

/-- `cleanup(paths)`: for each path, unlink it when `fs.existsSync` says it is
there (unlink errors are swallowed; in the model unlink always succeeds). -/
def cleanup (paths : List String) (fs : FS) : FS :=
  paths.foldl (fun f p => if (f p).isSome then fsUnlink f p else f) fs

/-- Result of the external encoder run: an output file's bytes, or a failure
that may or may not have left a leftover piece of the output file behind. -/
inductive FfmpegResult
  | success (out : Bytes)
  | failure (leftover : Option Bytes)

/-- The environment of the video pipeline: sharp, the remote store probed for
the tenant logo, the rasterization performed by `sharp(x).toFile(...)` (what
ends up inside a logo scratch file), and the external encoder invocation
(fed the scratch input's content and the filter graph string). -/
structure VideoEnv where
  sharp : SharpEnv
  store : String → StoreAns
  rasterize : SharpInput → Bytes
  ffmpegRun : Bytes → String → FfmpegResult

/-- One finished `processVideo` job: the resolved value, the final scratch
filesystem, and the content that `fs.writeFileSync(inputPath, fileBuffer)`
placed into the scratch input file. -/
structure VideoRun where
  result : Bytes
  fs : FS
  inputWritten : Option Bytes

/-- The ffmpeg filter-graph string the code assembles: the brand overlay at
`main_w - overlay_w - PADDING : PADDING` (top right), chained — when a tenant
logo exists — with a second overlay at `PADDING : PADDING` (top left). -/
def buildFilter (hasOrgLogo : Bool) : String :=
  let base := "[0:v][1:v]overlay=main_w-overlay_w-" ++ natStr PADDING ++ ":" ++ natStr PADDING
  if hasOrgLogo then
    base ++ "[tmp];[tmp][2:v]overlay=" ++ natStr PADDING ++ ":" ++ natStr PADDING
  else base

/-- `processVideo(fileBuffer, orgName)` at timestamp `now`: materialize the
first argument verbatim into the scratch input file, materialize the logo
rasters, and run the encoder on the scratch input's content; on success return
the output bytes, on encoder failure return the original first argument, and
on a setup failure (the tenant logo resolution rejecting) the catch block also
returns the original; every exit path runs `cleanup` on the same four scratch
paths. -/
def processVideo (env : VideoEnv) (now : Nat) (fileBuffer : Bytes) (orgName : String)
    (fs0 : FS) : VideoRun :=
  let inputPath := inputPathAt now
  let outputPath := outputPathAt now
  let sigtrackLogoPath := sigtrackPathAt now
  let orgLogoPath := orgPathAt now
  let scratch := [inputPath, outputPath, sigtrackLogoPath, orgLogoPath]
  let fs1 := fsWrite fs0 inputPath fileBuffer
  let sigtrackLogo := createRoundedLogo env.sharp (.file SIGTRACK_LOGO_PATH) LOGO_SIZE
  let fs2 := fsWrite fs1 sigtrackLogoPath (env.rasterize sigtrackLogo)
  match getOrgLogoBuffer env.store orgName with
  | .error _ =>
    { result := fileBuffer, fs := cleanup scratch fs2, inputWritten := some fileBuffer }
  | .ok orgLogoBuffer =>
    let fs3 := match orgLogoBuffer with
      | some b =>
        fsWrite fs2 orgLogoPath (env.rasterize (createRoundedLogo env.sharp (.buf b) LOGO_SIZE))
      | none => fs2
    match env.ffmpegRun fileBuffer (buildFilter orgLogoBuffer.isSome) with
    | .success out =>
      let fs4 := fsWrite fs3 outputPath out
      { result := out, fs := cleanup scratch fs4, inputWritten := some fileBuffer }
    | .failure leftover =>
      let fs4 := match leftover with
        | some b => fsWrite fs3 outputPath b
        | none => fs3
      { result := fileBuffer, fs := cleanup scratch fs4, inputWritten := some fileBuffer }

/-- One conditional-unlink step of `cleanup`, pointwise. -/
theorem cleanup_step_apply (f : FS) (p q : String) :
    (if (f p).isSome then fsUnlink f p else f) q = if q = p then none else f q := by
  by_cases hp : (f p).isSome
  · simp [hp, fsUnlink]
  · rw [if_neg hp]
    by_cases hq : q = p
    · subst hq
      rw [if_pos rfl]
      exact Option.not_isSome_iff_eq_none.mp hp
    · rw [if_neg hq]

/-- `cleanup` pointwise: a cleaned path reads `none`, every other path is
untouched. -/
theorem cleanup_apply (ps : List String) (fs : FS) (q : String) :
    cleanup ps fs q = if q ∈ ps then none else fs q := by
  induction ps generalizing fs with
  | nil => simp [cleanup]
  | cons p ps ih =>
    have hstep : cleanup (p :: ps) fs
        = cleanup ps (if (fs p).isSome then fsUnlink fs p else fs) := rfl
    rw [hstep, ih, cleanup_step_apply]
    by_cases h1 : q ∈ ps
    · simp [h1]
    · by_cases h2 : q = p
      · simp [h1, h2]
      · simp [h1, h2]

/-- C2: when the external encoder fails, `processVideo` resolves with the
original input unchanged (the encoder error is never propagated) and the
cleanup removes every scratch file of the job — the final scratch filesystem
reads `none` on all four scratch paths and is untouched elsewhere. -/
theorem processVideo_encoder_failure (env : VideoEnv) (now : Nat) (fileBuffer : Bytes)
    (orgName : String) (fs0 : FS) (orgLogoBuffer : Option Bytes) (leftover : Option Bytes)
    (holb : getOrgLogoBuffer env.store orgName = .ok orgLogoBuffer)
    (henc : env.ffmpegRun fileBuffer (buildFilter orgLogoBuffer.isSome) = .failure leftover) :
    (processVideo env now fileBuffer orgName fs0).result = fileBuffer ∧
    (∀ p ∈ videoScratchPaths now, (processVideo env now fileBuffer orgName fs0).fs p = none) ∧
    (∀ q, q ∉ videoScratchPaths now →
      (processVideo env now fileBuffer orgName fs0).fs q = fs0 q) := by
  rcases orgLogoBuffer with _ | ob <;> rcases leftover with _ | lo <;>
    refine ⟨by simp only [processVideo, holb, henc], fun p hp => ?_, fun q hq => ?_⟩ <;>
    first
      | (simp only [videoScratchPaths] at hp
         simp only [processVideo, holb, henc, cleanup_apply]
         simp [hp])
      | (simp only [videoScratchPaths, List.mem_cons, List.not_mem_nil, or_false, not_or] at hq
         obtain ⟨h1, h2, h3, h4⟩ := hq
         simp only [processVideo, holb, henc, cleanup_apply]
         simp [videoScratchPaths, fsWrite, h1, h2, h3, h4])

/-- A video environment whose encoder always fails (leaving a partial output
file behind), with no tenant logo anywhere. -/
def demoVideoEnv : VideoEnv :=
  { sharp := { roundify := fun _ _ => .ok [3], compositeRun := fun _ _ => .ok [7] }
    store := fun _ => .absent
    rasterize := fun _ => [0]
    ffmpegRun := fun _ _ => .failure (some [9]) }

/-- The empty scratch filesystem. -/
def emptyFS : FS := fun _ => none

/-- Witness for C2 at a concrete failing encoder: the input comes back
unchanged and the scratch input file is gone afterwards. -/
theorem processVideo_encoder_failure_witness :
    (processVideo demoVideoEnv 7 [1, 2] "acme" emptyFS).result = [1, 2] ∧
    (processVideo demoVideoEnv 7 [1, 2] "acme" emptyFS).fs (inputPathAt 7) = none := by
  have h := processVideo_encoder_failure demoVideoEnv 7 [1, 2] "acme" emptyFS
    none (some [9]) (by decide) rfl
  exact ⟨h.1, h.2.1 (inputPathAt 7) (by simp [videoScratchPaths])⟩

/-- The bytes of a JS string when it is handed to a Buffer-accepting sink
(`fs.writeFileSync` coerces a string argument to the bytes of its text). -/
def strBytes (s : String) : Bytes := s.data.map Char.toNat

/-- The video branch of `POST /api/upload` (src/index.js lines 448-459): the
local temp file's PATH STRING is what gets passed to `processVideo`, and
success is detected by comparing the returned value against that same path;
on failure the comparison is an equality, so the original temp path stays the
upload source (second component: the local temp filesystem). -/
def uploadVideoBranch (env : VideoEnv) (now : Nat) (filePath : String) (orgName : String)
    (fs0 : FS) : Bytes × FS :=
  let run := processVideo env now (strBytes filePath) orgName fs0
  if run.result ≠ strBytes filePath then (run.result, fsUnlink run.fs filePath)
  else (strBytes filePath, run.fs)

/-- C10: `processVideo` writes its first argument verbatim as the scratch
input file's content and returns that argument itself on encoder failure; the
upload endpoint's video branch passes the temp file's path string as that
argument — so the scratch input file holds the path text, failure is detected
by the string comparison, and the upload keeps the original temp path. -/
theorem processVideo_path_argument (env : VideoEnv) (now : Nat) (filePath orgName : String)
    (fs0 : FS) (orgLogoBuffer : Option Bytes) (leftover : Option Bytes)
    (holb : getOrgLogoBuffer env.store orgName = .ok orgLogoBuffer)
    (henc : env.ffmpegRun (strBytes filePath) (buildFilter orgLogoBuffer.isSome)
      = .failure leftover) :
    (∀ (x : Bytes) (fs : FS), (processVideo env now x orgName fs).inputWritten = some x) ∧
    (processVideo env now (strBytes filePath) orgName fs0).inputWritten
      = some (strBytes filePath) ∧
    (processVideo env now (strBytes filePath) orgName fs0).result = strBytes filePath ∧
    (uploadVideoBranch env now filePath orgName fs0).1 = strBytes filePath := by
  have hall : ∀ (x : Bytes) (fs : FS),
      (processVideo env now x orgName fs).inputWritten = some x := by
    intro x fs
    rcases h : getOrgLogoBuffer env.store orgName with e | ob
    · simp [processVideo, h]
    · rcases h2 : env.ffmpegRun x (buildFilter ob.isSome) with out | lo
      · simp [processVideo, h, h2]
      · simp [processVideo, h, h2]
  have hres : (processVideo env now (strBytes filePath) orgName fs0).result
      = strBytes filePath := by
    simp only [processVideo, holb, henc]
  refine ⟨hall, hall _ _, hres, ?_⟩
  simp [uploadVideoBranch, hres]

/-- Witness for C10 at a concrete path string and failing encoder. -/
theorem processVideo_path_argument_witness :
    (processVideo demoVideoEnv 7 (strBytes "/tmp/file-1.mp4") "acme" emptyFS).inputWritten
      = some (strBytes "/tmp/file-1.mp4") ∧
    (processVideo demoVideoEnv 7 (strBytes "/tmp/file-1.mp4") "acme" emptyFS).result
      = strBytes "/tmp/file-1.mp4" ∧
    (uploadVideoBranch demoVideoEnv 7 "/tmp/file-1.mp4" "acme" emptyFS).1
      = strBytes "/tmp/file-1.mp4" := by
  have h := processVideo_path_argument demoVideoEnv 7 "/tmp/file-1.mp4" "acme" emptyFS
    none (some [9]) (by decide) rfl
  exact ⟨h.2.1, h.2.2.1, h.2.2.2⟩

/- ### Logo replacement (src/index.js lines 329-341 and 403-414) -/

/-- The logo path of a scope with a given extension (the scope is `/admin`
for the admin logo and `/organizations/<org>` for a tenant). -/
def logoVariantPath (scope ext : String) : String := scope ++ "/logo" ++ ext

/-- The delete phase of a logo replacement: for each extension of the fixed
list, delete the variant when it exists. -/
def deleteLogoVariants (scope : String) (fs : FS) : FS :=
  extensions.foldl (fun f ext =>
    let p := logoVariantPath scope ext
    if (f p).isSome then fsUnlink f p else f) fs

/-- One logo replacement operation (admin logo upload, and organization update
with a logo): delete all known extension variants first, then write the new
logo at `path.extname` of the uploaded filename. -/
def replaceLogo (scope newExt : String) (buf : Bytes) (fs : FS) : FS :=
  fsWrite (deleteLogoVariants scope fs) (logoVariantPath scope newExt) buf

/-- The delete fold pointwise, over an arbitrary extension list. -/
theorem foldDel_apply (scope : String) (l : List String) (fs : FS) (q : String) :
    (l.foldl (fun f ext =>
      let p := logoVariantPath scope ext
      if (f p).isSome then fsUnlink f p else f) fs) q
      = if ∃ e ∈ l, q = logoVariantPath scope e then none else fs q := by
  induction l generalizing fs with
  | nil => simp
  | cons x xs ih =>
    simp only [List.foldl_cons]
    rw [ih, cleanup_step_apply]
    by_cases h1 : ∃ e ∈ xs, q = logoVariantPath scope e
    · simp [h1]
    · by_cases h2 : q = logoVariantPath scope x
      · simp [h1, h2]
      · simp [h1, h2]

/-- `deleteLogoVariants` pointwise. -/
theorem deleteLogoVariants_apply (scope : String) (fs : FS) (q : String) :
    deleteLogoVariants scope fs q
      = if ∃ e ∈ extensions, q = logoVariantPath scope e then none else fs q :=
  foldDel_apply scope extensions fs q

/-- Variant paths of one scope determine the extension. -/
theorem logoVariantPath_inj (scope : String) {e1 e2 : String}
    (h : logoVariantPath scope e1 = logoVariantPath scope e2) : e1 = e2 := by
  unfold logoVariantPath at h
  have hd := congrArg String.data h
  simp only [String.data_append, List.append_assoc] at hd
  exact String.ext (List.append_cancel_left (List.append_cancel_left hd))

/-- C9 counterexample: starting from an empty scope, replacing with an
uploaded `logo.bmp` (an extension outside the fixed list) and then with
`logo.png` leaves TWO logo files at the scope — the `.bmp` variant is not in
the deletion list, so it is not deleted before the new logo is written. -/
theorem replaceLogo_counterexample :
    (replaceLogo "/admin" ".png" [2] (replaceLogo "/admin" ".bmp" [1] emptyFS))
      "/admin/logo.bmp" = some [1] ∧
    (replaceLogo "/admin" ".png" [2] (replaceLogo "/admin" ".bmp" [1] emptyFS))
      "/admin/logo.png" = some [2] ∧
    (".bmp" : String) ≠ ".png" := by
  refine ⟨by decide, by decide, by decide⟩

/-- C9 amended: a replacement deletes every variant with an extension from
the fixed list before writing, so after any replacement — and hence after any
nonempty sequence of replacements — at most one logo variant with an
extension FROM THE FIXED LIST exists at the scope (an uploaded extension
outside the list escapes both the invariant and the deletion). -/
theorem replaceLogo_single_variant (scope newExt : String) (buf : Bytes) (fs : FS) :
    (∀ e ∈ extensions, deleteLogoVariants scope fs (logoVariantPath scope e) = none) ∧
    (∀ e1 e2, e1 ∈ extensions → e2 ∈ extensions →
      (replaceLogo scope newExt buf fs (logoVariantPath scope e1)).isSome →
      (replaceLogo scope newExt buf fs (logoVariantPath scope e2)).isSome →
      e1 = e2) := by
  constructor
  · intro e he
    rw [deleteLogoVariants_apply, if_pos ⟨e, he, rfl⟩]
  · intro e1 e2 h1 h2 hs1 hs2
    unfold replaceLogo at hs1 hs2
    simp only [fsWrite] at hs1 hs2
    by_cases k1 : logoVariantPath scope e1 = logoVariantPath scope newExt
    · by_cases k2 : logoVariantPath scope e2 = logoVariantPath scope newExt
      · exact (logoVariantPath_inj scope k1).trans (logoVariantPath_inj scope k2).symm
      · exfalso
        rw [if_neg k2, deleteLogoVariants_apply, if_pos ⟨e2, h2, rfl⟩] at hs2
        simp at hs2
    · exfalso
      rw [if_neg k1, deleteLogoVariants_apply, if_pos ⟨e1, h1, rfl⟩] at hs1
      simp at hs1

/-- Witness for the amended C9 at a concrete scope and replacement. -/
theorem replaceLogo_single_variant_witness :
    deleteLogoVariants "/org1" emptyFS (logoVariantPath "/org1" ".jpg") = none ∧
    (".png" : String) = ".png" := by
  refine ⟨(replaceLogo_single_variant "/org1" ".png" [1] emptyFS).1 ".jpg" (by decide), ?_⟩
  exact (replaceLogo_single_variant "/org1" ".png" [1] emptyFS).2 ".png" ".png"
    (by decide) (by decide) (by decide) (by decide)
